import Mathlib

/-!
# Verification of the MIDOGpp inference web application

A shallow embedding of the repository's code, checked against its
natural-language specification.

The repository ships the React client (`app/src/App.tsx`), an image-viewer
component, and documentation; the FastAPI backend implementing the
tiling / NMS pipeline is not part of the source tree, so those parts are
modelled from the specification where indicated.

Sections:
* frontend data model (the `Prediction` / `ProcessingInfo` / `AnalysisResult`
  interfaces of `App.tsx`) and the JSON keys of the analysis response;
* the `handleAnalyze` client flow (presigned-URL request, S3 upload,
  analysis request) as a state-and-trace function;
* the image-viewer zoom operations;
* the detection core (size classifier, tiler, merger, assembler) modelled
  from the specification.
-/

namespace Midog

/-! ## Frontend data model, from `app/src/App.tsx` -/

/-- An axis-aligned bounding box `[x1, y1, x2, y2]`, in pixel coordinates.
Coordinates are modelled as rationals. -/
structure BBox where
  x1 : ℚ
  y1 : ℚ
  x2 : ℚ
  y2 : ℚ
deriving DecidableEq

/-- The `Prediction` interface of `App.tsx`: one detected object. -/
structure Prediction where
  bbox : BBox
  confidence : ℚ
  class_id : Int
  class_name : String
deriving DecidableEq

/-- The `ProcessingInfo` interface of `App.tsx`. -/
structure ProcessingInfo where
  original_size : String
  original_format : Option String
  method : String
  window_size : String
deriving DecidableEq

/-- The `AnalysisResult` interface of `App.tsx`: the object the client
receives from the analysis endpoint. -/
structure AnalysisResult where
  predictions : List Prediction
  image : String
  image_width : Int
  image_height : Int
  total_detections : Int
  processing_info : Option ProcessingInfo
deriving DecidableEq

/-- The JSON keys of the analysis response, in the order they appear in the
`AnalysisResult` interface of `App.tsx` (also shown in the README's
"Analysis Response Format"). -/
def analysisResultKeys : List String :=
  ["predictions", "image", "image_width", "image_height", "total_detections",
   "processing_info"]

/-- The JSON keys of `processing_info`, from the `ProcessingInfo` interface
of `App.tsx`. -/
def processingInfoKeys : List String :=
  ["original_size", "original_format", "method", "window_size"]

/-- Modelled from the spec: the field list of the `Result` structure of
section 4.6 (`predictions`, `image_width`, `image_height`,
`total_detections`, `processing_info`). -/
def specResultKeys : List String :=
  ["predictions", "image_width", "image_height", "total_detections",
   "processing_info"]

/-- Modelled from the spec: the field list of `processing_info` per
section 4.6 (`method`, `window_size`, optional `original_format`). -/
def specProcessingInfoKeys : List String :=
  ["method", "window_size", "original_format"]

/-! ## The `handleAnalyze` client flow, from `app/src/App.tsx` -/

/-- The part of a selected `File` that `handleAnalyze` reads: its name and
content type (`file.type`, the empty string when the browser reports none). -/
structure FileInfo where
  name : String
  contentType : String
deriving DecidableEq

/-- The component state touched by `handleAnalyze`
(`useState` hooks of `App`). -/
structure AppState where
  selectedFile : Option FileInfo
  analysisResult : Option AnalysisResult
  isLoading : Bool
  error : Option String
  previewUrl : Option String
  uploadProgress : Nat
  isUploading : Bool
deriving DecidableEq

/-- Outcome of the `POST /generate-presigned-url` fetch: either an ok
response carrying `presigned_url` and `s3_key`, or a non-ok response whose
body may carry a `detail` message. -/
inductive PresignOutcome where
  | ok (presigned_url : String) (s3_key : String)
  | httpError (detail : Option String)
deriving DecidableEq

/-- Outcome of the XHR `PUT` to the presigned URL: a load event with an
HTTP status, a network error, or a timeout. -/
inductive UploadOutcome where
  | completed (status : Nat) (statusText : String)
  | networkError
  | timedOut
deriving DecidableEq

/-- Outcome of the `POST /analyze-s3` fetch. -/
inductive AnalyzeOutcome where
  | ok (result : AnalysisResult)
  | httpError (detail : Option String)
deriving DecidableEq

/-- The environment a single `handleAnalyze` run interacts with: the
responses of the three network calls, should they be made. -/
structure Env where
  presign : PresignOutcome
  upload : UploadOutcome
  analyze : AnalyzeOutcome
deriving DecidableEq

/-- A network request issued by `handleAnalyze`, with the payload it
carries. -/
inductive NetRequest where
  | presignRequest (filename : String) (content_type : String)
  | s3Put (url : String) (content_type : String)
  | analyzeRequest (s3_key : String)
deriving DecidableEq

/-- The endpoint a request targets, forgetting the payload. -/
def NetRequest.kind : NetRequest → Nat
  | NetRequest.presignRequest _ _ => 0
  | NetRequest.s3Put _ _ => 1
  | NetRequest.analyzeRequest _ => 2

/-- `selectedFile.type || 'image/jpeg'`: the empty string is falsy in
JavaScript, so it falls back to `image/jpeg`. -/
def effectiveContentType (file : FileInfo) : String :=
  if file.contentType = "" then "image/jpeg" else file.contentType

/-- The `finally` block of `handleAnalyze`: `setIsLoading(false)`,
`setIsUploading(false)`, `setUploadProgress(0)`. -/
def finalizeState (st : AppState) : AppState :=
  { st with isLoading := false, isUploading := false, uploadProgress := 0 }

/-- The error message built for a non-200 S3 upload response. -/
def s3FailMsg (status : Nat) (statusText : String) : String :=
  s!"S3 upload failed: {status} {statusText}"

/-- The JSON body of the `POST /analyze-s3` request, as key-value pairs:
`JSON.stringify({ s3_key: s3_key })`. -/
def analyzeRequestBody (s3_key : String) : List (String × String) :=
  [("s3_key", s3_key)]

/-- The JSON body of the `POST /generate-presigned-url` request:
`JSON.stringify({ filename, content_type })`. -/
def presignRequestBody (filename content_type : String) : List (String × String) :=
  [("filename", filename), ("content_type", content_type)]

/-- `handleAnalyze` of `App.tsx`, as a function from the pre-call component
state and the network environment to the post-call state together with the
list of network requests issued, in the order they were sent. -/
def handleAnalyze (st : AppState) (env : Env) : AppState × List NetRequest :=
  match st.selectedFile with
  | none => ({ st with error := some "Please select an image first" }, [])
  | some file =>
    let st1 : AppState :=
      { st with isLoading := true, isUploading := true, uploadProgress := 0,
                error := none }
    let contentType := effectiveContentType file
    let presignReq := NetRequest.presignRequest file.name contentType
    match env.presign with
    | PresignOutcome.httpError detail =>
        (finalizeState
          { st1 with error := some (detail.getD "Failed to get upload URL") },
         [presignReq])
    | PresignOutcome.ok url s3_key =>
        let uploadReq := NetRequest.s3Put url contentType
        match env.upload with
        | UploadOutcome.networkError =>
            (finalizeState { st1 with error := some "S3 upload network error" },
             [presignReq, uploadReq])
        | UploadOutcome.timedOut =>
            (finalizeState { st1 with error := some "S3 upload timeout" },
             [presignReq, uploadReq])
        | UploadOutcome.completed status statusText =>
            if status = 200 then
              let analyzeReq := NetRequest.analyzeRequest s3_key
              match env.analyze with
              | AnalyzeOutcome.ok result =>
                  (finalizeState { st1 with analysisResult := some result },
                   [presignReq, uploadReq, analyzeReq])
              | AnalyzeOutcome.httpError detail =>
                  (finalizeState
                    { st1 with error := some (detail.getD "Analysis failed") },
                   [presignReq, uploadReq, analyzeReq])
            else
              (finalizeState
                { st1 with error := some (s3FailMsg status statusText) },
               [presignReq, uploadReq])

/-- A run of the flow hits a fatal condition: the presigned-URL request
fails, the upload errors, times out, or completes with a non-200 status,
or the analysis call returns a non-ok status. -/
def flowFails (env : Env) : Prop :=
  (∃ d, env.presign = PresignOutcome.httpError d) ∨
  env.upload = UploadOutcome.networkError ∨
  env.upload = UploadOutcome.timedOut ∨
  (∃ s tx, env.upload = UploadOutcome.completed s tx ∧ s ≠ 200) ∨
  (∃ d, env.analyze = AnalyzeOutcome.httpError d)

/-! ## Image viewer zoom operations, from the `ImageViewer` component -/

/-- `zoomIn`: `setScale(prev => Math.min(prev * 1.5, 8))`. -/
def zoomIn (scale : ℚ) : ℚ := min (scale * 1.5) 8

/-- `zoomOut`: `setScale(prev => Math.max(prev / 1.5, 0.1))`. -/
def zoomOut (scale : ℚ) : ℚ := max (scale / 1.5) 0.1

/-- `handleWheel`: `delta = e.deltaY > 0 ? 0.9 : 1.1`;
`newScale = Math.min(Math.max(scale * delta, 0.1), 8)`. -/
def wheelScale (scale : ℚ) (deltaYPositive : Bool) : ℚ :=
  let delta : ℚ := if deltaYPositive then 0.9 else 1.1
  min (max (scale * delta) 0.1) 8

/-- `handleTouchZoom`: `scaleChange = distance / initialDistance`;
`newScale = Math.min(Math.max(initialScale * scaleChange, 0.1), 8)`. -/
def pinchScale (initialScale distance initialDistance : ℚ) : ℚ :=
  min (max (initialScale * (distance / initialDistance)) 0.1) 8

/-! ## Detection core, modelled from the specification

The FastAPI backend implementing the pipeline (`server.py`) is not part of
the shipped source tree; the components below are modelled from the
specification's component contracts (sections 4.1, 4.2, 4.6).
-/

/-- Modelled from the spec: an `Image` (section 3) — integer `width`,
`height` and an optional `original_format`; the backend image decode layer
is missing from the source tree. -/
structure Image where
  width : Nat
  height : Nat
  original_format : Option String
deriving DecidableEq

/-- Modelled from the spec: a `Window` (section 3) — an axis-aligned
rectangle `{origin_x, origin_y, width, height}` within the image extent. -/
structure Window where
  origin_x : Nat
  origin_y : Nat
  width : Nat
  height : Nat
deriving DecidableEq

/-- The two processing paths of the `SizeClassifier` contract
(section 4.1). -/
inductive Method where
  | direct
  | tiled
deriving DecidableEq

/-- Modelled from the spec: `classify(image, window_size)` (section 4.1),
returning `Direct` when both dimensions fit inside one window and `Tiled`
otherwise; the backend `SizeClassifier` is missing from the source tree. -/
def classify (width height window_size : Nat) : Method :=
  if width ≤ window_size ∧ height ≤ window_size then Method.direct
  else Method.tiled

/-- The provenance string recorded for each processing path
(`direct` / `sliding_window`, section 6). -/
def methodString : Method → String
  | Method.direct => "direct"
  | Method.tiled => "sliding_window"

/-- Modelled from the spec: the origin walk of the Tiler (section 4.2)
along one axis.  Starting from origin `o` (with `o + ws ≤ dim`), the walk
stops when the window reaches the image edge, otherwise steps by `stride`;
when the next regular origin would place a window partially outside, the
origin is pulled back so that `origin + ws = dim`.  `fuel` bounds the
recursion; `dim` steps always suffice. -/
def axisOriginsGo (dim ws stride : Nat) : Nat → Nat → List Nat
  | 0, o => [o]
  | fuel + 1, o =>
    if o + ws = dim then [o]
    else if o + stride + ws ≤ dim then
      o :: axisOriginsGo dim ws stride fuel (o + stride)
    else [o, dim - ws]

/-- The window origins along one axis of length `dim`, for windows of size
`ws` walked with the given `stride`. -/
def axisOrigins (dim ws stride : Nat) : List Nat :=
  axisOriginsGo dim ws stride dim 0

/-- The `(origin, length)` segments along one axis: when the axis fits in
one window the single full segment, otherwise `ws`-long segments at the
walked origins. -/
def axisSegments (dim ws stride : Nat) : List (Nat × Nat) :=
  if dim ≤ ws then [(0, dim)]
  else (axisOrigins dim ws stride).map (fun o => (o, ws))

/-- Modelled from the spec: `tile(image, window_size, overlap)`
(section 4.2) — the covering set of windows, the cartesian product of the
per-axis segments with `stride = window_size − overlap`; the backend Tiler
is missing from the source tree. -/
def tile (img : Image) (window_size overlap : Nat) : List Window :=
  let stride := window_size - overlap
  (axisSegments img.height window_size stride).flatMap (fun rowSeg =>
    (axisSegments img.width window_size stride).map (fun colSeg =>
      { origin_x := colSeg.1, origin_y := rowSeg.1,
        width := colSeg.2, height := rowSeg.2 }))

/-- Modelled from the spec: the `Result` of the `ResultAssembler`
(section 4.6); the backend assembler is missing from the source tree. -/
structure SpecProcessingInfo where
  method : String
  window_size : String
  original_format : Option String
deriving DecidableEq

/-- Modelled from the spec: the assembled `Result` structure of
section 4.6. -/
structure SpecResult where
  predictions : List Prediction
  image_width : Nat
  image_height : Nat
  total_detections : Nat
  processing_info : SpecProcessingInfo
deriving DecidableEq

/-- Modelled from the spec:
`assemble(image, detection_set, method, window_size)` (section 4.6) — pure
packaging of the final detections plus provenance metadata, with
`total_detections = |detection_set|` and `window_size` rendered as a
human-readable `"WxH"` string; the backend assembler is missing from the
source tree. -/
def assemble (img : Image) (detection_set : List Prediction) (m : Method)
    (window_size : Nat) : SpecResult :=
  { predictions := detection_set
    image_width := img.width
    image_height := img.height
    total_detections := detection_set.length
    processing_info :=
      { method := methodString m
        window_size := toString window_size ++ "x" ++ toString window_size
        original_format := img.original_format } }

/-! ## CrossTileMerger, modelled from the specification (section 4.5) -/

/-- The area of the intersection of two axis-aligned boxes (zero when they
do not overlap). -/
def interArea (a b : BBox) : ℚ :=
  max 0 (min a.x2 b.x2 - max a.x1 b.x1) * max 0 (min a.y2 b.y2 - max a.y1 b.y1)

/-- The area of an axis-aligned box. -/
def area (a : BBox) : ℚ := (a.x2 - a.x1) * (a.y2 - a.y1)

/-- The area of the union of two axis-aligned boxes. -/
def unionArea (a b : BBox) : ℚ := area a + area b - interArea a b

/-- Modelled from the spec: Intersection-over-Union on the axis-aligned
bboxes, `area(intersection) / area(union)`; a union area of zero yields
IoU 0 (section 4.5, step 3). -/
def iou (a b : BBox) : ℚ :=
  if unionArea a b = 0 then 0 else interArea a b / unionArea a b

/-- Modelled from the spec: the merger's deterministic sort order
(section 4.5, step 2) — confidence descending, ties broken by ascending
`x1` then `y1`. -/
def detLE (d e : Prediction) : Prop :=
  e.confidence < d.confidence ∨
    (e.confidence = d.confidence ∧
      (d.bbox.x1 < e.bbox.x1 ∨
        (d.bbox.x1 = e.bbox.x1 ∧ d.bbox.y1 ≤ e.bbox.y1)))

instance : DecidableRel detLE := fun d e => by unfold detLE; infer_instance

instance : IsTotal Prediction detLE := by
  constructor
  intro a b
  unfold detLE
  rcases lt_trichotomy a.confidence b.confidence with h | h | h
  · exact Or.inr (Or.inl h)
  · rcases lt_trichotomy a.bbox.x1 b.bbox.x1 with hx | hx | hx
    · exact Or.inl (Or.inr ⟨h.symm, Or.inl hx⟩)
    · rcases le_total a.bbox.y1 b.bbox.y1 with hy | hy
      · exact Or.inl (Or.inr ⟨h.symm, Or.inr ⟨hx, hy⟩⟩)
      · exact Or.inr (Or.inr ⟨h, Or.inr ⟨hx.symm, hy⟩⟩)
    · exact Or.inr (Or.inr ⟨h, Or.inl hx⟩)
  · exact Or.inl (Or.inl h)

instance : IsTrans Prediction detLE := by
  constructor
  intro a b c hab hbc
  unfold detLE at hab hbc ⊢
  rcases hab with h1 | ⟨h1, hx1⟩
  · rcases hbc with h2 | ⟨h2, _⟩
    · exact Or.inl (h2.trans h1)
    · exact Or.inl (h2.trans_lt h1)
  · rcases hbc with h2 | ⟨h2, hx2⟩
    · exact Or.inl (h2.trans_eq h1)
    · refine Or.inr ⟨h2.trans h1, ?_⟩
      rcases hx1 with hlt1 | ⟨heq1, hy1⟩
      · rcases hx2 with hlt2 | ⟨heq2, _⟩
        · exact Or.inl (hlt1.trans hlt2)
        · exact Or.inl (hlt1.trans_eq heq2)
      · rcases hx2 with hlt2 | ⟨heq2, hy2⟩
        · exact Or.inl (heq1.trans_lt hlt2)
        · exact Or.inr ⟨heq1.trans heq2, hy1.trans hy2⟩

/-- Modelled from the spec: greedy NMS within one class (section 4.5,
steps 3–4) — keep the head (the highest-remaining-confidence detection
once the list is sorted), discard every remaining detection whose IoU with
it exceeds the threshold, repeat. -/
def nmsGo (iou_threshold : ℚ) : List Prediction → List Prediction
  | [] => []
  | d :: rest =>
      d :: nmsGo iou_threshold
        (rest.filter fun e => decide (iou d.bbox e.bbox ≤ iou_threshold))
termination_by l => l.length
decreasing_by
  simp only [List.length_cons]
  exact Nat.lt_succ_of_le (List.length_filter_le _ _)

/-- The class ids occurring in a detection list, in order of first
appearance (section 4.5, step 1: partition input detections by
`class_id`). -/
def classList : List Prediction → List Int
  | [] => []
  | d :: rest =>
      d.class_id :: (classList rest).filter (fun c => decide (c ≠ d.class_id))

/-- The merger's sort: `insertionSort` under `detLE`. -/
def sortDet (l : List Prediction) : List Prediction := List.insertionSort detLE l

/-- The kept detections of one class: the class's detections sorted under
`detLE`, then greedily suppressed (section 4.5, steps 2–4). -/
def classBlock (l : List Prediction) (iou_threshold : ℚ) (c : Int) :
    List Prediction :=
  nmsGo iou_threshold (sortDet (l.filter fun d => decide (d.class_id = c)))

/-- The per-class NMS blocks, concatenated over the given class ids
(section 4.5, step 5). -/
def mergeClasses (l : List Prediction) (iou_threshold : ℚ) :
    List Int → List Prediction
  | [] => []
  | c :: cs => classBlock l iou_threshold c ++ mergeClasses l iou_threshold cs

/-- Modelled from the spec: `merge(detections, iou_threshold)`
(section 4.5) — class-aware greedy NMS over the full remapped detection
set; the backend merger is missing from the source tree. -/
def merge (detections : List Prediction) (iou_threshold : ℚ) : List Prediction :=
  mergeClasses detections iou_threshold (classList detections)

/-! ## Sample values used by the witness theorems -/

/-- A sample selected file. -/
def sampleFile : FileInfo := { name := "slide.jpg", contentType := "image/jpeg" }

/-- A sample pre-call component state with a file selected and no stored
result. -/
def sampleState : AppState :=
  { selectedFile := some sampleFile, analysisResult := none, isLoading := false,
    error := none, previewUrl := some "blob:preview", uploadProgress := 0,
    isUploading := false }

/-- A sample component state with no file selected. -/
def noFileState : AppState :=
  { selectedFile := none, analysisResult := none, isLoading := false,
    error := none, previewUrl := none, uploadProgress := 0, isUploading := false }

/-- A sample analysis response. -/
def sampleResult : AnalysisResult :=
  { predictions := [], image := "data:image/png;base64,AAAA",
    image_width := 1024, image_height := 768, total_detections := 0,
    processing_info := none }

/-- A sample environment in which all three network calls succeed. -/
def sampleEnvOk : Env :=
  { presign := PresignOutcome.ok "https://s3.example/upload" "uploads/slide.jpg",
    upload := UploadOutcome.completed 200 "OK",
    analyze := AnalyzeOutcome.ok sampleResult }

/-- A sample environment in which the presigned-URL request fails. -/
def sampleEnvFail : Env :=
  { presign := PresignOutcome.httpError none,
    upload := UploadOutcome.networkError,
    analyze := AnalyzeOutcome.httpError none }

/-! ## Theorems -/

/-- C1, counterexample: the claim that the result has exactly the spec's
field list fails on the code — the client's `AnalysisResult` also carries
an `image` field, and its `processing_info` also carries `original_size`,
neither of which is in the section 4.6 field list. -/
theorem result_keys_counterexample :
    "image" ∈ analysisResultKeys ∧ "image" ∉ specResultKeys ∧
    "original_size" ∈ processingInfoKeys ∧
    "original_size" ∉ specProcessingInfoKeys := by decide

/-- C1, amended: the object stored for the consumer after a successful
run is exactly the analysis response, whose fields are `predictions`,
`image`, `image_width`, `image_height`, `total_detections`, and an
optional `processing_info` with fields `original_size`, optional
`original_format`, `method`, `window_size`. -/
theorem result_contract (st : AppState) (env : Env) (file : FileInfo)
    (url k stx : String) (res : AnalysisResult)
    (hf : st.selectedFile = some file)
    (hp : env.presign = PresignOutcome.ok url k)
    (hu : env.upload = UploadOutcome.completed 200 stx)
    (ha : env.analyze = AnalyzeOutcome.ok res) :
    (handleAnalyze st env).1.analysisResult = some res ∧
    analysisResultKeys =
      ["predictions", "image", "image_width", "image_height",
       "total_detections", "processing_info"] ∧
    processingInfoKeys =
      ["original_size", "original_format", "method", "window_size"] := by
  refine ⟨?_, rfl, rfl⟩
  simp [handleAnalyze, hf, hp, hu, ha, finalizeState]

/-- C1, witness: the amended contract at a concrete state and
environment. -/
theorem result_contract_witness :
    (sampleState.selectedFile = some sampleFile ∧
     sampleEnvOk.presign =
       PresignOutcome.ok "https://s3.example/upload" "uploads/slide.jpg" ∧
     sampleEnvOk.upload = UploadOutcome.completed 200 "OK" ∧
     sampleEnvOk.analyze = AnalyzeOutcome.ok sampleResult) ∧
    ((handleAnalyze sampleState sampleEnvOk).1.analysisResult =
       some sampleResult ∧
     analysisResultKeys =
       ["predictions", "image", "image_width", "image_height",
        "total_detections", "processing_info"] ∧
     processingInfoKeys =
       ["original_size", "original_format", "method", "window_size"]) :=
  ⟨⟨rfl, rfl, rfl, rfl⟩,
   result_contract sampleState sampleEnvOk sampleFile
     "https://s3.example/upload" "uploads/slide.jpg" "OK" sampleResult
     rfl rfl rfl rfl⟩

/-- C2: in every assembled `Result`, `total_detections` equals the number
of elements of `predictions`. -/
theorem assemble_count_invariant (img : Image) (ds : List Prediction)
    (m : Method) (ws : Nat) :
    (assemble img ds m ws).total_detections =
      (assemble img ds m ws).predictions.length := rfl

/-- C5: `classify` returns `Direct` exactly when both dimensions are at
most the window size and `Tiled` otherwise; the recorded provenance string
is always one of `direct` and `sliding_window`, and the assembled result
records it verbatim. -/
theorem classify_spec (w h ws wsz : Nat) (img : Image) (ds : List Prediction) :
    (classify w h ws = Method.direct ↔ (w ≤ ws ∧ h ≤ ws)) ∧
    (classify w h ws = Method.tiled ↔ ¬(w ≤ ws ∧ h ≤ ws)) ∧
    (methodString (classify w h ws) = "direct" ∨
      methodString (classify w h ws) = "sliding_window") ∧
    (assemble img ds (classify w h ws) wsz).processing_info.method =
      methodString (classify w h ws) := by
  unfold classify
  split <;> simp_all [methodString, assemble]

/-- C8, counterexample: the analysis request body carries only `s3_key` —
none of window size, overlap, IoU threshold, or confidence floor is part
of the request. -/
theorem analyze_request_missing_config :
    (analyzeRequestBody "uploads/example.jpg").map Prod.fst = ["s3_key"] ∧
    "window_size" ∉ (analyzeRequestBody "uploads/example.jpg").map Prod.fst ∧
    "overlap" ∉ (analyzeRequestBody "uploads/example.jpg").map Prod.fst ∧
    "iou_threshold" ∉ (analyzeRequestBody "uploads/example.jpg").map Prod.fst ∧
    "confidence_floor" ∉ (analyzeRequestBody "uploads/example.jpg").map Prod.fst := by
  decide

/-- C8, amended: every analysis request sent across the boundary carries
only the `s3_key` of the uploaded object; window size, overlap, IoU
threshold, and confidence floor are not part of the request and are left
implicit in the backend. -/
theorem analyze_request_only_s3_key : ∀ k : String,
    (analyzeRequestBody k).map Prod.fst = ["s3_key"] := fun _ => rfl

/-- C9: invoked with no file selected, `handleAnalyze` sets the error
message `Please select an image first`, issues no network request, and
leaves every other piece of state unchanged. -/
theorem handleAnalyze_no_file (st : AppState) (env : Env)
    (h : st.selectedFile = none) :
    (handleAnalyze st env).1.error = some "Please select an image first" ∧
    (handleAnalyze st env).2 = [] ∧
    (handleAnalyze st env).1.analysisResult = st.analysisResult ∧
    (handleAnalyze st env).1.previewUrl = st.previewUrl ∧
    (handleAnalyze st env).1.uploadProgress = st.uploadProgress ∧
    (handleAnalyze st env).1.isLoading = st.isLoading ∧
    (handleAnalyze st env).1.isUploading = st.isUploading ∧
    (handleAnalyze st env).1.selectedFile = st.selectedFile := by
  simp [handleAnalyze, h]

/-- C9, witness: the no-file behaviour at a concrete state and
environment. -/
theorem handleAnalyze_no_file_witness :
    noFileState.selectedFile = none ∧
    ((handleAnalyze noFileState sampleEnvOk).1.error =
       some "Please select an image first" ∧
     (handleAnalyze noFileState sampleEnvOk).2 = [] ∧
     (handleAnalyze noFileState sampleEnvOk).1.analysisResult =
       noFileState.analysisResult ∧
     (handleAnalyze noFileState sampleEnvOk).1.previewUrl =
       noFileState.previewUrl ∧
     (handleAnalyze noFileState sampleEnvOk).1.uploadProgress =
       noFileState.uploadProgress ∧
     (handleAnalyze noFileState sampleEnvOk).1.isLoading =
       noFileState.isLoading ∧
     (handleAnalyze noFileState sampleEnvOk).1.isUploading =
       noFileState.isUploading ∧
     (handleAnalyze noFileState sampleEnvOk).1.selectedFile =
       noFileState.selectedFile) :=
  ⟨rfl, handleAnalyze_no_file noFileState sampleEnvOk rfl⟩

/-- C10: every zoom operation of the image viewer — `zoomIn`, `zoomOut`,
mouse-wheel zoom, and pinch zoom — keeps the scale inside `[0.1, 8]` when
it starts there (the wheel and pinch clamps hold even unconditionally). -/
theorem zoom_clamped (s dist idist : ℚ) (dp : Bool)
    (h1 : 0.1 ≤ s) (h2 : s ≤ 8) :
    0.1 ≤ zoomIn s ∧ zoomIn s ≤ 8 ∧
    0.1 ≤ zoomOut s ∧ zoomOut s ≤ 8 ∧
    0.1 ≤ wheelScale s dp ∧ wheelScale s dp ≤ 8 ∧
    0.1 ≤ pinchScale s dist idist ∧ pinchScale s dist idist ≤ 8 := by
  unfold zoomIn zoomOut wheelScale pinchScale
  refine ⟨le_min (by linarith) (by norm_num), min_le_right _ _,
          le_max_right _ _,
          max_le (by rw [div_le_iff₀ (by norm_num : (0 : ℚ) < 1.5)]; linarith)
            (by norm_num),
          le_min (le_max_right _ _) (by norm_num), min_le_right _ _,
          le_min (le_max_right _ _) (by norm_num), min_le_right _ _⟩

/-- C10, witness: the clamp bounds at scale 1. -/
theorem zoom_clamped_witness :
    ((0.1 : ℚ) ≤ 1 ∧ (1 : ℚ) ≤ 8) ∧
    (0.1 ≤ zoomIn 1 ∧ zoomIn 1 ≤ 8 ∧
     0.1 ≤ zoomOut 1 ∧ zoomOut 1 ≤ 8 ∧
     0.1 ≤ wheelScale 1 true ∧ wheelScale 1 true ≤ 8 ∧
     0.1 ≤ pinchScale 1 2 1 ∧ pinchScale 1 2 1 ≤ 8) :=
  ⟨by norm_num, zoom_clamped 1 2 1 true (by norm_num) (by norm_num)⟩

/-- C6: an analysis request is issued only after the presigned-URL request
succeeded and the upload completed with HTTP status 200, and the request
trace is then exactly presigned-URL request, S3 `PUT`, analysis request —
in that order, with the analysis request referencing the returned
`s3_key`. -/
theorem analysis_after_upload (st : AppState) (env : Env) (k : String)
    (hk : NetRequest.analyzeRequest k ∈ (handleAnalyze st env).2) :
    ∃ file url statusText,
      st.selectedFile = some file ∧
      env.presign = PresignOutcome.ok url k ∧
      env.upload = UploadOutcome.completed 200 statusText ∧
      (handleAnalyze st env).2 =
        [NetRequest.presignRequest file.name (effectiveContentType file),
         NetRequest.s3Put url (effectiveContentType file),
         NetRequest.analyzeRequest k] := by
  rcases hsel : st.selectedFile with _ | file
  · simp [handleAnalyze, hsel] at hk
  rcases hp : env.presign with ⟨url, s3k⟩ | d
  · rcases hu : env.upload with ⟨status, stx⟩ | _ | _
    · by_cases hs : status = 200
      · subst hs
        rcases ha : env.analyze with r | d <;>
        · obtain rfl : k = s3k := by
            simpa [handleAnalyze, hsel, hp, hu, ha] using hk
          exact ⟨file, url, stx, rfl, rfl, rfl, by
            simp [handleAnalyze, hsel, hp, hu, ha]⟩
      · simp [handleAnalyze, hsel, hp, hu, hs] at hk
    · simp [handleAnalyze, hsel, hp, hu] at hk
    · simp [handleAnalyze, hsel, hp, hu] at hk
  · simp [handleAnalyze, hsel, hp] at hk

/-- C6, witness: in the all-success environment the trace is the ordered
three-request list. -/
theorem analysis_after_upload_witness :
    (NetRequest.analyzeRequest "uploads/slide.jpg" ∈
      (handleAnalyze sampleState sampleEnvOk).2) ∧
    (∃ file url statusText,
      sampleState.selectedFile = some file ∧
      sampleEnvOk.presign = PresignOutcome.ok url "uploads/slide.jpg" ∧
      sampleEnvOk.upload = UploadOutcome.completed 200 statusText ∧
      (handleAnalyze sampleState sampleEnvOk).2 =
        [NetRequest.presignRequest file.name (effectiveContentType file),
         NetRequest.s3Put url (effectiveContentType file),
         NetRequest.analyzeRequest "uploads/slide.jpg"]) :=
  ⟨by decide, analysis_after_upload sampleState sampleEnvOk "uploads/slide.jpg"
    (by decide)⟩

/-- C7: when any step of the flow fails, the stored analysis result stays
empty, a single error message is surfaced, and no endpoint is called
twice. -/
theorem failure_atomic (st : AppState) (env : Env) (file : FileInfo)
    (hf : st.selectedFile = some file) (hempty : st.analysisResult = none)
    (hfail : flowFails env) :
    (handleAnalyze st env).1.analysisResult = none ∧
    (∃ msg, (handleAnalyze st env).1.error = some msg) ∧
    ((handleAnalyze st env).2.map NetRequest.kind).Nodup := by
  rcases hp : env.presign with ⟨url, s3k⟩ | d
  · rcases hu : env.upload with ⟨status, stx⟩ | _ | _
    · by_cases hs : status = 200
      · subst hs
        rcases ha : env.analyze with r | d
        · exfalso
          rcases hfail with ⟨d2, hd⟩ | hd | hd | ⟨s, tx, hd, hne⟩ | ⟨d2, hd⟩ <;>
            simp_all
        · refine ⟨?_, ⟨d.getD "Analysis failed", ?_⟩, ?_⟩ <;>
            simp [handleAnalyze, hf, hp, hu, ha, finalizeState, hempty,
              NetRequest.kind]
      · refine ⟨?_, ⟨s3FailMsg status stx, ?_⟩, ?_⟩ <;>
          simp [handleAnalyze, hf, hp, hu, hs, finalizeState, hempty,
            NetRequest.kind]
    · refine ⟨?_, ⟨"S3 upload network error", ?_⟩, ?_⟩ <;>
        simp [handleAnalyze, hf, hp, hu, finalizeState, hempty,
          NetRequest.kind]
    · refine ⟨?_, ⟨"S3 upload timeout", ?_⟩, ?_⟩ <;>
        simp [handleAnalyze, hf, hp, hu, finalizeState, hempty,
          NetRequest.kind]
  · refine ⟨?_, ⟨d.getD "Failed to get upload URL", ?_⟩, ?_⟩ <;>
      simp [handleAnalyze, hf, hp, finalizeState, hempty, NetRequest.kind]

/-- C7, witness: atomic failure at a concrete state and a concrete
environment whose presigned-URL request fails. -/
theorem failure_atomic_witness :
    (sampleState.selectedFile = some sampleFile ∧
     sampleState.analysisResult = none ∧ flowFails sampleEnvFail) ∧
    ((handleAnalyze sampleState sampleEnvFail).1.analysisResult = none ∧
     (∃ msg, (handleAnalyze sampleState sampleEnvFail).1.error = some msg) ∧
     ((handleAnalyze sampleState sampleEnvFail).2.map NetRequest.kind).Nodup) :=
  ⟨⟨rfl, rfl, Or.inl ⟨none, rfl⟩⟩,
   failure_atomic sampleState sampleEnvFail sampleFile rfl rfl
     (Or.inl ⟨none, rfl⟩)⟩

/-! ### Tiler lemmas -/

/-- Every origin produced by the walk keeps its window inside the axis. -/
theorem axisOriginsGo_le (dim ws stride : Nat) :
    ∀ fuel o, o + ws ≤ dim →
      ∀ q ∈ axisOriginsGo dim ws stride fuel o, q + ws ≤ dim := by
  intro fuel
  induction fuel with
  | zero =>
    intro o ho q hq
    simp only [axisOriginsGo, List.mem_singleton] at hq
    omega
  | succ n ih =>
    intro o ho q hq
    simp only [axisOriginsGo] at hq
    by_cases h1 : o + ws = dim
    · rw [if_pos h1] at hq
      simp only [List.mem_singleton] at hq
      omega
    · rw [if_neg h1] at hq
      by_cases h2 : o + stride + ws ≤ dim
      · rw [if_pos h2] at hq
        rcases List.mem_cons.mp hq with rfl | hq
        · exact ho
        · exact ih (o + stride) (by omega) q hq
      · rw [if_neg h2] at hq
        rcases List.mem_cons.mp hq with rfl | hq
        · exact ho
        · simp only [List.mem_singleton] at hq
          omega

/-- The walked origins cover every point of the axis from the start origin
on, provided the fuel allows the walk to reach the end. -/
theorem axisOriginsGo_covers (dim ws stride : Nat) (hstride : 1 ≤ stride)
    (hsw : stride ≤ ws) :
    ∀ fuel o p, o + ws ≤ dim → o ≤ p → p < dim →
      dim ≤ o + stride * fuel + ws →
      ∃ q ∈ axisOriginsGo dim ws stride fuel o, q ≤ p ∧ p < q + ws := by
  intro fuel
  induction fuel with
  | zero =>
    intro o p ho hop hp hfuel
    exact ⟨o, by simp [axisOriginsGo], hop, by omega⟩
  | succ n ih =>
    intro o p ho hop hp hfuel
    simp only [axisOriginsGo]
    by_cases h1 : o + ws = dim
    · rw [if_pos h1]
      exact ⟨o, by simp, hop, by omega⟩
    · rw [if_neg h1]
      by_cases h2 : o + stride + ws ≤ dim
      · rw [if_pos h2]
        by_cases hps : p < o + stride
        · exact ⟨o, List.mem_cons_self _ _, hop, by omega⟩
        · obtain ⟨q, hq, hq1, hq2⟩ :=
            ih (o + stride) p (by omega) (by omega) hp
              (by rw [Nat.mul_succ] at hfuel; omega)
          exact ⟨q, List.mem_cons_of_mem _ hq, hq1, hq2⟩
      · rw [if_neg h2]
        by_cases hpo : p < o + ws
        · exact ⟨o, by simp, hop, hpo⟩
        · exact ⟨dim - ws, by simp, by omega, by omega⟩

/-- Every per-axis segment lies inside the axis. -/
theorem axisSegments_inside (dim ws stride : Nat) :
    ∀ seg ∈ axisSegments dim ws stride, seg.1 + seg.2 ≤ dim := by
  intro seg hseg
  unfold axisSegments at hseg
  by_cases h : dim ≤ ws
  · rw [if_pos h] at hseg
    simp only [List.mem_singleton] at hseg
    subst hseg
    simp
  · rw [if_neg h] at hseg
    obtain ⟨o, ho, rfl⟩ := List.mem_map.mp hseg
    exact axisOriginsGo_le dim ws stride dim 0 (by omega) o ho

/-- The per-axis segments cover the whole axis. -/
theorem axisSegments_cover (dim ws stride : Nat) (hstride : 1 ≤ stride)
    (hsw : stride ≤ ws) (p : Nat) (hp : p < dim) :
    ∃ seg ∈ axisSegments dim ws stride, seg.1 ≤ p ∧ p < seg.1 + seg.2 := by
  unfold axisSegments
  by_cases h : dim ≤ ws
  · rw [if_pos h]
    exact ⟨(0, dim), by simp, by omega, by omega⟩
  · rw [if_neg h]
    have hmul : dim ≤ stride * dim := Nat.le_mul_of_pos_left dim hstride
    obtain ⟨q, hq, hq1, hq2⟩ :=
      axisOriginsGo_covers dim ws stride hstride hsw dim 0 p (by omega)
        (by omega) hp (by omega)
    exact ⟨(q, ws), List.mem_map_of_mem _ hq, hq1, hq2⟩

/-- C3, counterexample: a 1280×1280 image with `window_size = 640` and
`overlap = 64` (stride 576) does not tile into the claimed four windows —
the walk needs a third, clamped origin `640 = 1280 − 640` per axis, giving
nine windows. -/
theorem tile_1280_counterexample :
    (tile ⟨1280, 1280, none⟩ 640 64).length = 9 ∧
    ¬((tile ⟨1280, 1280, none⟩ 640 64).map (fun w => (w.origin_x, w.origin_y)) =
        [(0, 0), (576, 0), (0, 576), (576, 576)]) := by decide

/-- C3, amended: for every image with positive dimensions and
`overlap < window_size`, the union of the tiled windows is exactly the
image rectangle — no window extends outside it and every pixel is covered,
the overflow origins being pulled back to `dimension − window_size`; the
1280×1280 example with `window_size = 640`, `overlap = 64` yields nine
windows with origins `{0, 576, 640} × {0, 576, 640}`. -/
theorem tile_coverage (img : Image) (window_size overlap : Nat)
    (hw : 1 ≤ img.width) (hh : 1 ≤ img.height) (hov : overlap < window_size) :
    (∀ w ∈ tile img window_size overlap,
        w.origin_x + w.width ≤ img.width ∧
        w.origin_y + w.height ≤ img.height) ∧
    (∀ px py, px < img.width → py < img.height →
        ∃ w ∈ tile img window_size overlap,
          w.origin_x ≤ px ∧ px < w.origin_x + w.width ∧
          w.origin_y ≤ py ∧ py < w.origin_y + w.height) ∧
    (tile ⟨1280, 1280, none⟩ 640 64).map (fun w => (w.origin_x, w.origin_y)) =
      [(0, 0), (576, 0), (640, 0), (0, 576), (576, 576), (640, 576),
       (0, 640), (576, 640), (640, 640)] := by
  refine ⟨?_, ?_, by decide⟩
  · intro w hw2
    unfold tile at hw2
    simp only [List.mem_flatMap, List.mem_map] at hw2
    obtain ⟨rowSeg, hrow, colSeg, hcol, rfl⟩ := hw2
    exact ⟨axisSegments_inside _ _ _ colSeg hcol,
           axisSegments_inside _ _ _ rowSeg hrow⟩
  · intro px py hpx hpy
    have hstride : 1 ≤ window_size - overlap := by omega
    have hsw : window_size - overlap ≤ window_size := by omega
    obtain ⟨cseg, hc, hc1, hc2⟩ :=
      axisSegments_cover img.width window_size _ hstride hsw px hpx
    obtain ⟨rseg, hr, hr1, hr2⟩ :=
      axisSegments_cover img.height window_size _ hstride hsw py hpy
    refine ⟨⟨cseg.1, rseg.1, cseg.2, rseg.2⟩, ?_, hc1, hc2, hr1, hr2⟩
    unfold tile
    simp only [List.mem_flatMap, List.mem_map]
    exact ⟨rseg, hr, cseg, hc, rfl⟩

/-- C3, witness: the amended coverage statement at the concrete 1280×1280
image with `window_size = 640`, `overlap = 64`. -/
theorem tile_coverage_witness :
    (1 ≤ (1280 : Nat) ∧ 1 ≤ (1280 : Nat) ∧ 64 < 640) ∧
    ((∀ w ∈ tile ⟨1280, 1280, none⟩ 640 64,
        w.origin_x + w.width ≤ (Image.mk 1280 1280 none).width ∧
        w.origin_y + w.height ≤ (Image.mk 1280 1280 none).height) ∧
     (∀ px py, px < (Image.mk 1280 1280 none).width →
        py < (Image.mk 1280 1280 none).height →
        ∃ w ∈ tile ⟨1280, 1280, none⟩ 640 64,
          w.origin_x ≤ px ∧ px < w.origin_x + w.width ∧
          w.origin_y ≤ py ∧ py < w.origin_y + w.height) ∧
     (tile ⟨1280, 1280, none⟩ 640 64).map (fun w => (w.origin_x, w.origin_y)) =
       [(0, 0), (576, 0), (640, 0), (0, 576), (576, 576), (640, 576),
        (0, 640), (576, 640), (640, 640)]) :=
  ⟨by decide, tile_coverage ⟨1280, 1280, none⟩ 640 64 (by decide) (by decide)
    (by decide)⟩

/-! ### Merger lemmas -/

/-- Unfolding: greedy NMS on the empty list. -/
theorem nmsGo_nil (t : ℚ) : nmsGo t [] = [] := by simp [nmsGo]

/-- Unfolding: greedy NMS keeps the head and recurses on the survivors. -/
theorem nmsGo_cons (t : ℚ) (d : Prediction) (rest : List Prediction) :
    nmsGo t (d :: rest) =
      d :: nmsGo t (rest.filter fun e => decide (iou d.bbox e.bbox ≤ t)) := by
  simp [nmsGo]

/-- The kept detections form a sublist of the input. -/
theorem nmsGo_sublist (t : ℚ) (l : List Prediction) :
    List.Sublist (nmsGo t l) l := by
  induction l using nmsGo.induct t with
  | case1 => simp [nmsGo_nil]
  | case2 d rest ih =>
    rw [nmsGo_cons]
    exact List.Sublist.cons₂ d (ih.trans (List.filter_sublist rest))

/-- Any two kept detections, in output order, have IoU at most the
threshold. -/
theorem nmsGo_pairwise (t : ℚ) (l : List Prediction) :
    (nmsGo t l).Pairwise (fun d e => iou d.bbox e.bbox ≤ t) := by
  induction l using nmsGo.induct t with
  | case1 => simp [nmsGo_nil]
  | case2 d rest ih =>
    rw [nmsGo_cons]
    refine List.Pairwise.cons (fun e he => ?_) ih
    have hmem := (nmsGo_sublist t _).subset he
    exact of_decide_eq_true (List.mem_filter.mp hmem).2

/-- Greedy NMS is the identity on a list in which every (ordered) pair has
IoU at most the threshold. -/
theorem nmsGo_eq_self (t : ℚ) (l : List Prediction)
    (h : l.Pairwise (fun d e => iou d.bbox e.bbox ≤ t)) : nmsGo t l = l := by
  induction l with
  | nil => exact nmsGo_nil t
  | cons d rest ih =>
    rw [nmsGo_cons]
    rcases List.pairwise_cons.mp h with ⟨hd, htail⟩
    rw [List.filter_eq_self.mpr (fun e he => decide_eq_true (hd e he)), ih htail]

/-- A per-class block is sorted under the merger's order. -/
theorem classBlock_sorted (l : List Prediction) (t : ℚ) (c : Int) :
    List.Sorted detLE (classBlock l t c) :=
  (List.sorted_insertionSort detLE _).sublist (nmsGo_sublist t _)

/-- Any two detections of a per-class block have IoU at most the
threshold. -/
theorem classBlock_pairwise (l : List Prediction) (t : ℚ) (c : Int) :
    (classBlock l t c).Pairwise (fun d e => iou d.bbox e.bbox ≤ t) :=
  nmsGo_pairwise t _

/-- Every detection of a per-class block belongs to that class. -/
theorem classBlock_class (l : List Prediction) (t : ℚ) (c : Int) :
    ∀ d ∈ classBlock l t c, d.class_id = c := by
  intro d hd
  have h1 : d ∈ sortDet (l.filter fun e => decide (e.class_id = c)) :=
    (nmsGo_sublist t _).subset hd
  have h2 : d ∈ l.filter fun e => decide (e.class_id = c) :=
    (List.perm_insertionSort detLE _).subset h1
  exact of_decide_eq_true (List.mem_filter.mp h2).2

/-- A per-class block is nonempty when the class occurs in the input. -/
theorem classBlock_ne_nil (l : List Prediction) (t : ℚ) (c : Int)
    (h : ∃ d ∈ l, d.class_id = c) : classBlock l t c ≠ [] := by
  obtain ⟨d, hd, hdc⟩ := h
  have hmem : d ∈ l.filter fun e => decide (e.class_id = c) :=
    List.mem_filter.mpr ⟨hd, decide_eq_true hdc⟩
  have hmem2 : d ∈ sortDet (l.filter fun e => decide (e.class_id = c)) :=
    (List.perm_insertionSort detLE _).mem_iff.mpr hmem
  unfold classBlock
  cases hs : sortDet (l.filter fun e => decide (e.class_id = c)) with
  | nil => rw [hs] at hmem2; simp at hmem2
  | cons a as => rw [nmsGo_cons]; simp

/-- The class ids of a detection list are pairwise distinct. -/
theorem classList_nodup : ∀ l : List Prediction, (classList l).Nodup
  | [] => by simp [classList]
  | d :: rest => by
    simp only [classList]
    refine List.nodup_cons.mpr ⟨fun hmem => ?_, (classList_nodup rest).filter _⟩
    have := (List.mem_filter.mp hmem).2
    simp at this

/-- A class id occurs in `classList` exactly when some detection of the
list carries it. -/
theorem mem_classList (c : Int) : ∀ l : List Prediction,
    (c ∈ classList l ↔ ∃ d ∈ l, d.class_id = c)
  | [] => by simp [classList]
  | d :: rest => by
    simp only [classList]
    constructor
    · intro h
      rcases List.mem_cons.mp h with h | h
      · exact ⟨d, List.mem_cons_self d rest, h.symm⟩
      · obtain ⟨e, he, hec⟩ :=
          (mem_classList c rest).mp (List.mem_of_mem_filter h)
        exact ⟨e, List.mem_cons_of_mem d he, hec⟩
    · rintro ⟨e, he, hec⟩
      by_cases hcd : c = d.class_id
      · rw [hcd]; exact List.mem_cons_self _ _
      · rcases List.mem_cons.mp he with rfl | he
        · exact absurd hec.symm hcd
        · refine List.mem_cons_of_mem _ (List.mem_filter.mpr ?_)
          exact ⟨(mem_classList c rest).mpr ⟨e, he, hec⟩,
            decide_eq_true hcd⟩

/-- Every detection kept by the class walk belongs to one of the walked
classes. -/
theorem mergeClasses_class (l : List Prediction) (t : ℚ) :
    ∀ cs : List Int, ∀ d ∈ mergeClasses l t cs, d.class_id ∈ cs
  | [] => by simp [mergeClasses]
  | c :: cs => by
    intro d hd
    rcases List.mem_append.mp hd with hd | hd
    · rw [classBlock_class l t c d hd]
      exact List.mem_cons_self _ _
    · exact List.mem_cons_of_mem _ (mergeClasses_class l t cs d hd)

/-- Filtering a per-class block by its own class keeps everything. -/
theorem filter_classBlock_self (l : List Prediction) (t : ℚ) (c : Int) :
    (classBlock l t c).filter (fun d => decide (d.class_id = c)) =
      classBlock l t c :=
  List.filter_eq_self.mpr fun d hd => decide_eq_true (classBlock_class l t c d hd)

/-- Filtering a per-class block by a different class keeps nothing. -/
theorem filter_classBlock_ne (l : List Prediction) (t : ℚ) (c cq : Int)
    (h : cq ≠ c) :
    (classBlock l t c).filter (fun d => decide (d.class_id = cq)) = [] := by
  refine List.filter_eq_nil_iff.mpr fun d hd h2 => ?_
  exact h ((of_decide_eq_true h2).symm.trans (classBlock_class l t c d hd))

/-- Filtering the concatenated class walk by one of the walked classes
recovers exactly that class's block. -/
theorem filter_mergeClasses (l : List Prediction) (t : ℚ) :
    ∀ cs : List Int, cs.Nodup → ∀ c ∈ cs,
      (mergeClasses l t cs).filter (fun d => decide (d.class_id = c)) =
        classBlock l t c
  | [] => by simp
  | c2 :: cs => by
    intro hnd c hc
    simp only [mergeClasses, List.filter_append]
    rcases List.mem_cons.mp hc with rfl | hc
    · rw [filter_classBlock_self]
      have hnotin : c ∉ cs := (List.nodup_cons.mp hnd).1
      have hnil :
          (mergeClasses l t cs).filter (fun d => decide (d.class_id = c)) = [] := by
        refine List.filter_eq_nil_iff.mpr fun d hd h2 => ?_
        exact hnotin ((of_decide_eq_true h2) ▸ mergeClasses_class l t cs d hd)
      rw [hnil, List.append_nil]
    · have hne : c ≠ c2 := fun h => (List.nodup_cons.mp hnd).1 (h ▸ hc)
      rw [filter_classBlock_ne l t c2 c hne, List.nil_append]
      exact filter_mergeClasses l t cs (List.nodup_cons.mp hnd).2 c hc

/-- The class ids of a nonempty single-class prefix followed by a rest. -/
theorem classList_append_const (c : Int) :
    ∀ (xs ys : List Prediction), xs ≠ [] → (∀ d ∈ xs, d.class_id = c) →
      classList (xs ++ ys) =
        c :: (classList ys).filter (fun c2 => decide (c2 ≠ c))
  | [], _ => by intro h _; exact absurd rfl h
  | [d], ys => by
    intro _ hall
    simp only [List.singleton_append, List.nil_append, classList]
    rw [hall d (List.mem_singleton.mpr rfl)]
    rfl
  | d :: d2 :: xs, ys => by
    intro _ hall
    have ih := classList_append_const c (d2 :: xs) ys (by simp)
      (fun e he => hall e (List.mem_cons_of_mem d he))
    have hdc := hall d (List.mem_cons_self _ _)
    simp only [List.cons_append, classList] at ih ⊢
    rw [ih, hdc]
    simp [List.filter_filter]

/-- The class walk over distinct classes with nonempty blocks reproduces
exactly those classes. -/
theorem classList_mergeClasses (l : List Prediction) (t : ℚ) :
    ∀ cs : List Int, cs.Nodup → (∀ c ∈ cs, classBlock l t c ≠ []) →
      classList (mergeClasses l t cs) = cs
  | [] => by simp [mergeClasses, classList]
  | c :: cs => by
    intro hnd hne
    simp only [mergeClasses]
    rw [classList_append_const c _ _ (hne c (List.mem_cons_self _ _))
      (classBlock_class l t c)]
    rw [classList_mergeClasses l t cs (List.nodup_cons.mp hnd).2
      (fun c2 hc2 => hne c2 (List.mem_cons_of_mem _ hc2))]
    congr 1
    refine List.filter_eq_self.mpr fun c2 hc2 => decide_eq_true fun h => ?_
    exact (List.nodup_cons.mp hnd).1 (h ▸ hc2)

/-- The class walk only depends on the per-class blocks. -/
theorem mergeClasses_congr (a b : List Prediction) (t : ℚ) :
    ∀ cs : List Int, (∀ c ∈ cs, classBlock a t c = classBlock b t c) →
      mergeClasses a t cs = mergeClasses b t cs
  | [] => by intro _; rfl
  | c :: cs => by
    intro h
    simp only [mergeClasses]
    rw [h c (List.mem_cons_self _ _),
      mergeClasses_congr a b t cs (fun c2 hc2 => h c2 (List.mem_cons_of_mem _ hc2))]

/-- C4: `merge` is idempotent — running the class-aware greedy NMS again
on its own output returns the identical detection list. -/
theorem merge_idempotent (D : List Prediction) (iou_threshold : ℚ) :
    merge (merge D iou_threshold) iou_threshold = merge D iou_threshold := by
  unfold merge
  set m := mergeClasses D iou_threshold (classList D) with hm
  have hnd := classList_nodup D
  have hne : ∀ c ∈ classList D, classBlock D iou_threshold c ≠ [] :=
    fun c hc => classBlock_ne_nil D iou_threshold c ((mem_classList c D).mp hc)
  have hcl : classList m = classList D :=
    classList_mergeClasses D iou_threshold (classList D) hnd hne
  rw [hcl]
  refine mergeClasses_congr m D iou_threshold (classList D) fun c hc => ?_
  have hfilter : m.filter (fun d => decide (d.class_id = c)) =
      classBlock D iou_threshold c :=
    filter_mergeClasses D iou_threshold (classList D) hnd c hc
  show nmsGo iou_threshold
      (sortDet (m.filter fun d => decide (d.class_id = c))) =
    classBlock D iou_threshold c
  have hsort : sortDet (classBlock D iou_threshold c) =
      classBlock D iou_threshold c :=
    List.Sorted.insertionSort_eq (classBlock_sorted D iou_threshold c)
  rw [hfilter, hsort]
  exact nmsGo_eq_self iou_threshold _ (classBlock_pairwise D iou_threshold c)

end Midog
